import Mathlib

/-!
Verification of the model-property extraction engine and its cache from the
`vscode-aspnetcore-view-helper` repository.

The repository carries two parser implementations:
* the current engine (bundled with `src/src/cache.ts`): source normalization,
  line recognizer with class/brace tracking, skip policy, classifier, metadata
  extractor, input-kind mapper and the bounded mtime/TTL cache — embedded
  below in namespace `ViewHelper`;
* the legacy engine (`aspnetcore-view-helper/src/modelParser.ts`) — embedded
  in namespace `LegacyParser`.

JavaScript strings are modelled as `String`/`List Char`, timestamps as `Nat`,
the JS `Map` as an insertion-ordered association list, and the file system
(`fs.statSync`, `fs.promises.readFile`, `vscode.workspace.findFiles`) as
explicit oracle parameters.  The regex replacements and matches of the source
are implemented as character-list scanners that follow the JavaScript regex
engine's leftmost-match and greedy/backtracking semantics for the concrete
patterns used by the source.  Scanners that skip over a matched region use an
explicit fuel argument (initialised to the input length, and decremented once
per step while each step consumes at least one character) so that every
definition is structurally recursive and kernel-evaluable.
-/

namespace ViewHelper

/-- JavaScript `\s` restricted to the ASCII whitespace characters that can
occur in the scanned text. -/
def isWsChar (c : Char) : Bool :=
  c = ' ' || c = '\t' || c = '\n' || c = '\r' || c = '\x0b' || c = '\x0c'

/-- `String.prototype.trim` on a character list. -/
def trimChars (l : List Char) : List Char :=
  ((l.dropWhile isWsChar).reverse.dropWhile isWsChar).reverse

/-- JS `String.prototype.split` on a single-character separator, keeping
empty segments. -/
def splitOnChar (sep : Char) : List Char → List (List Char)
  | [] => [[]]
  | c :: rest =>
    let r := splitOnChar sep rest
    if c = sep then [] :: r
    else
      match r with
      | [] => [[c]]
      | h :: t => (c :: h) :: t

/-- `content.split('\n')`. -/
def splitLines (l : List Char) : List (List Char) := splitOnChar '\n' l

/-- JS `String.prototype.includes` (substring occurrence) on char lists. -/
def containsSub (hay needle : List Char) : Bool :=
  match hay with
  | [] => needle.isEmpty
  | _ :: t => needle.isPrefixOf hay || containsSub t needle

/-- JS `hay.includes(needle)` on `String`. -/
def containsStr (hay needle : String) : Bool :=
  containsSub hay.data needle.data

/-- JS `String.prototype.toLowerCase` (ASCII). -/
def lowerStr (s : String) : String :=
  String.mk (s.data.map Char.toLower)

/-- JS `s.endsWith(t)`. -/
def endsWithStr (s t : String) : Bool :=
  t.data.isSuffixOf s.data

/-- `split('\n').length`, the JS notion of line count used by the spec. -/
def countLines (s : String) : Nat :=
  (splitLines s.data).length

/-! ### Source normalization (`cleanSourceCode`)

`cleanSourceCode` applies five global regex replacements in order:
block comments `/\*[\s\S]*?\*/` → ``, line comments `//.*$` (multiline) → ``,
double-quoted strings `"(?:[^"\\]|\\.)*"` → `""`, single-quoted literals
`'(?:[^'\\]|\\.)*'` → `''`, and verbatim strings `@"(?:[^"]|"")*"` → `""`. -/

/-- Position after the first `*/` in the list, when one exists (the lazy
`[\s\S]*?` of the block-comment regex stops at the nearest `*/`). -/
def findClose : List Char → Option (List Char)
  | [] => none
  | _ :: [] => none
  | a :: b :: rest =>
    if a = '*' ∧ b = '/' then some rest else findClose (b :: rest)

/-- Replacement of `/\*[\s\S]*?\*\//g` by the empty string.  When a `/*` has
no closing `*/` the regex engine finds no match there and moves one position
forward, which the `none` branch reproduces. -/
def removeBlockCommentsF : Nat → List Char → List Char
  | 0, l => l
  | _ + 1, [] => []
  | _ + 1, [c] => [c]
  | fuel + 1, a :: b :: rest =>
    if a = '/' ∧ b = '*' then
      match findClose rest with
      | some rest2 => removeBlockCommentsF fuel rest2
      | none => a :: removeBlockCommentsF fuel (b :: rest)
    else a :: removeBlockCommentsF fuel (b :: rest)

def removeBlockComments (l : List Char) : List Char :=
  removeBlockCommentsF l.length l

/-- Suffix starting at the next `'\n'` (or the empty list): the portion of a
line kept after a `//.*$` replacement. -/
def dropToEol : List Char → List Char
  | [] => []
  | c :: rest => if c = '\n' then c :: rest else dropToEol rest

/-- Replacement of `/\/\/.*$/gm` by the empty string (truncate each line at
its first `//`). -/
def removeLineCommentsF : Nat → List Char → List Char
  | 0, l => l
  | _ + 1, [] => []
  | _ + 1, [c] => [c]
  | fuel + 1, a :: b :: rest =>
    if a = '/' ∧ b = '/' then removeLineCommentsF fuel (dropToEol rest)
    else a :: removeLineCommentsF fuel (b :: rest)

def removeLineComments (l : List Char) : List Char :=
  removeLineCommentsF l.length l

/-- Interior-and-close matcher for `q(?:[^q\\]|\\.)*q` after the opening
quote `q`: returns the suffix following the closing quote.  `[^q\\]` accepts
newlines, `\\.` does not (JS `.` excludes line terminators), and the pattern
is deterministic, so no backtracking arises. -/
def matchQuoted (q : Char) : List Char → Option (List Char)
  | [] => none
  | [c] => if c = q then some [] else none
  | c :: d :: rest =>
    if c = q then some (d :: rest)
    else if c = '\\' then
      if d = '\n' ∨ d = '\r' then none else matchQuoted q rest
    else matchQuoted q (d :: rest)

/-- Replacement of a quoted-literal regex by the two-character empty literal
`qq`.  When no match starts at an opening quote the engine advances one
position, which the `none` branch reproduces. -/
def removeQuotedPassF (q : Char) : Nat → List Char → List Char
  | 0, l => l
  | _ + 1, [] => []
  | fuel + 1, c :: rest =>
    if c = q then
      match matchQuoted q rest with
      | some rest2 => q :: q :: removeQuotedPassF q fuel rest2
      | none => c :: removeQuotedPassF q fuel rest
    else c :: removeQuotedPassF q fuel rest

def removeQuotedPass (q : Char) (l : List Char) : List Char :=
  removeQuotedPassF q l.length l

/-- Interior-and-close matcher for `@"(?:[^"]|"")*"` after the opening `@"`.
The only backtracking choice of the regex is at a doubled quote `""`, where
the greedy star first tries to treat it as an escaped quote and continue, and
on failure closes the literal at the first of the two quotes. -/
def matchVerbatim : List Char → Option (List Char)
  | [] => none
  | [c] => if c = '"' then some [] else none
  | c :: d :: rest =>
    if c = '"' then
      if d = '"' then
        match matchVerbatim rest with
        | some r => some r
        | none => some (d :: rest)
      else some (d :: rest)
    else matchVerbatim (d :: rest)

/-- Replacement of `/@"(?:[^"]|"")*"/g` by `""`. -/
def removeVerbatimPassF : Nat → List Char → List Char
  | 0, l => l
  | _ + 1, [] => []
  | _ + 1, [c] => [c]
  | fuel + 1, a :: b :: rest =>
    if a = '@' ∧ b = '"' then
      match matchVerbatim rest with
      | some rest2 => '"' :: '"' :: removeVerbatimPassF fuel rest2
      | none => a :: removeVerbatimPassF fuel (b :: rest)
    else a :: removeVerbatimPassF fuel (b :: rest)

def removeVerbatimPass (l : List Char) : List Char :=
  removeVerbatimPassF l.length l

/-- `cleanSourceCode` (current engine): the five replacements in source
order. -/
def cleanSourceCode (s : String) : String :=
  String.mk
    (removeVerbatimPass
      (removeQuotedPass '\''
        (removeQuotedPass '"'
          (removeLineComments
            (removeBlockComments s.data)))))

end ViewHelper

namespace ViewHelper

/-! ### Line recognizer: the attribute and property regexes

The recognizer works on trimmed lines.  An attribute line is
`^\[([^\]]*)\]$`; a property line is
`^(?:public|internal|protected|private)?\s*(?:virtual\s+|override\s+|static\s+)?`
`([A-Za-z_][A-Za-z0-9_<>?,\s]*\??)\s+([A-Za-z_][A-Za-z0-9_]*)\s*\{[^}]*\}`.
The property matcher implements the regex's backtracking: only the length of
the first captured group (and its optional trailing `?`) admits choice; all
other sub-patterns are deterministic because each follows a character class
disjoint from its neighbour. -/

/-- Body of `^\[([^\]]*)\]$` after the opening `[`: the line must end with
`]` and contain no other `]`. -/
def attrBody : List Char → Option (List Char)
  | [] => none
  | [c] => if c = ']' then some [] else none
  | c :: d :: rest =>
    if c = ']' then none
    else (attrBody (d :: rest)).map (fun b => c :: b)

/-- `line.match(/^\[([^\]]*)\]$/)`, returning the capture. -/
def attributeLineMatch (line : List Char) : Option (List Char) :=
  match line with
  | [] => none
  | c :: rest => if c = '[' then attrBody rest else none

def isIdentStart (c : Char) : Bool := c.isAlpha || c = '_'

def isIdentChar (c : Char) : Bool := c.isAlpha || c.isDigit || c = '_'

/-- The class `[A-Za-z0-9_<>?,\s]` of the type capture. -/
def isTypeChar (c : Char) : Bool :=
  c.isAlpha || c.isDigit || c = '_' || c = '<' || c = '>' || c = '?' || c = ',' || isWsChar c

/-- `\s+([A-Za-z_][A-Za-z0-9_]*)\s*\{[^}]*\}` — the part after the type
capture; returns the property name.  Deterministic: the whitespace runs must
be maximal because the following classes exclude whitespace, and `[^}]*`
forces the closing brace to be the first `}`. -/
def matchTail (l : List Char) : Option String :=
  if (l.takeWhile isWsChar).isEmpty then none
  else
    match l.dropWhile isWsChar with
    | [] => none
    | c :: rest =>
      if isIdentStart c then
        match (rest.dropWhile isIdentChar).dropWhile isWsChar with
        | '\x7b' :: rest2 =>
          if rest2.contains '\x7d' then some (String.mk (c :: rest.takeWhile isIdentChar))
          else none
        | _ => none
      else none

/-- One backtracking attempt for the type capture: keep `i` characters of the
maximal `[A-Za-z0-9_<>?,\s]` run, try the optional `?` greedily, then the
tail. -/
def tryAt (c : Char) (run after : List Char) (i : Nat) : Option (String × String) :=
  let taken := run.take i
  let rem := run.drop i ++ after
  let withQ :=
    match rem with
    | '?' :: r2 => (matchTail r2).map (fun nm => (String.mk (c :: (taken ++ ['?'])), nm))
    | _ => none
  match withQ with
  | some res => some res
  | none => (matchTail rem).map (fun nm => (String.mk (c :: taken), nm))

/-- Backtracking loop over the type-capture length, longest first (greedy
star). -/
def tryGroup1Len (c : Char) (run after : List Char) : Nat → Option (String × String)
  | 0 => tryAt c run after 0
  | i + 1 =>
    match tryAt c run after (i + 1) with
    | some res => some res
    | none => tryGroup1Len c run after i

/-- `([A-Za-z_][A-Za-z0-9_<>?,\s]*\??)\s+([A-Za-z_]...` from a given start
position: the type capture followed by the tail. -/
def matchTypeName (l : List Char) : Option (String × String) :=
  match l with
  | [] => none
  | c :: rest =>
    if isIdentStart c then
      tryGroup1Len c (rest.takeWhile isTypeChar) (rest.dropWhile isTypeChar)
        (rest.takeWhile isTypeChar).length
    else none

/-- One alternative of `(?:virtual\s+|override\s+|static\s+)?`: the literal
keyword followed by mandatory whitespace. -/
def tryVirtualKw (kw l : List Char) : Option (List Char) :=
  if kw.isPrefixOf l then
    let r := l.drop kw.length
    if (r.takeWhile isWsChar).isEmpty then none
    else some (r.dropWhile isWsChar)
  else none

/-- `\s*(?:virtual\s+|override\s+|static\s+)?` then the type/name part, with
the regex's alternative order and fall-through to the empty alternative. -/
def matchCoreWithV (l : List Char) : Option (String × String) :=
  let l1 := l.dropWhile isWsChar
  let attempt := fun (kw : List Char) =>
    match tryVirtualKw kw l1 with
    | some r => matchTypeName r
    | none => none
  match attempt "virtual".data with
  | some res => some res
  | none =>
    match attempt "override".data with
    | some res => some res
    | none =>
      match attempt "static".data with
      | some res => some res
      | none => matchTypeName l1

/-- `line.match(propertyRegex)`, returning `(raw type capture, name)`.  The
four access-modifier alternatives are tried in regex order, then the empty
alternative. -/
def propertyLineMatch (line : List Char) : Option (String × String) :=
  let tryMod := fun (kw : List Char) =>
    if kw.isPrefixOf line then matchCoreWithV (line.drop kw.length) else none
  match tryMod "public".data with
  | some res => some res
  | none =>
    match tryMod "internal".data with
    | some res => some res
    | none =>
      match tryMod "protected".data with
      | some res => some res
      | none =>
        match tryMod "private".data with
        | some res => some res
        | none => matchCoreWithV line

/-! ### Classifier, metadata extractor and input-kind mapper -/

/-- One recovered property of a scanned class (`ModelProperty` of
`src/src/types.ts`). -/
structure ModelProperty where
  name : String
  type : String
  isPrimaryKey : Bool
  isRequired : Bool
  isNullable : Bool
  attributes : List String
  inputType : Option String := none
  displayName : Option String := none
  description : Option String := none
  maxLength : Option Nat := none
  minLength : Option Nat := none
deriving DecidableEq

/-- The exclusion list of `shouldSkipProperty`. -/
def exclusionAttributes : List String := ["NotMapped", "Computed", "DatabaseGenerated"]

/-- The `skipPatterns` regex list of `shouldSkipProperty`: `/^Id$/i`,
`/CreatedAt$/i`, `/UpdatedAt$/i`, `/ModifiedAt$/i`, `/DeletedAt$/i`,
`/Version$/i`, `/Timestamp$/i`, `/RowVersion$/i`. -/
def skipNamePatterns (name : String) : Bool :=
  lowerStr name == "id"
    || endsWithStr (lowerStr name) "createdat"
    || endsWithStr (lowerStr name) "updatedat"
    || endsWithStr (lowerStr name) "modifiedat"
    || endsWithStr (lowerStr name) "deletedat"
    || endsWithStr (lowerStr name) "version"
    || endsWithStr (lowerStr name) "timestamp"
    || endsWithStr (lowerStr name) "rowversion"

/-- `shouldSkipProperty(name, attributes)`. -/
def shouldSkipProperty (name : String) (attributes : List String) : Bool :=
  if attributes.any (fun attr => exclusionAttributes.any (fun excl => containsStr attr excl))
  then true
  else skipNamePatterns name

/-- `replace(/\s+/g, ' ')`, as a single left-to-right scan with a
run-skipping flag. -/
def collapseWsAux : Bool → List Char → List Char
  | _, [] => []
  | skipping, c :: rest =>
    if isWsChar c then
      if skipping then collapseWsAux true rest
      else ' ' :: collapseWsAux true rest
    else c :: collapseWsAux false rest

/-- `replace(/\?\s*$/, '')`. -/
def stripNullable (l : List Char) : List Char :=
  match (l.reverse.dropWhile isWsChar) with
  | '?' :: rest => rest.reverse
  | _ => l

/-- `replace(/^(System\.)?/, '')`. -/
def stripSystem (l : List Char) : List Char :=
  if "System.".data.isPrefixOf l then l.drop 7 else l

/-- Position after the first `.` reachable without crossing a line
terminator (the lazy `.*?\.` of the Microsoft-prefix regex). -/
def dropThroughDot : List Char → Option (List Char)
  | [] => none
  | c :: r =>
    if c = '.' then some r
    else if c = '\n' ∨ c = '\r' then none
    else dropThroughDot r

/-- `replace(/^(Microsoft\..*?\.)?/, '')`. -/
def stripMicrosoft (l : List Char) : List Char :=
  if "Microsoft.".data.isPrefixOf l then
    match dropThroughDot (l.drop 10) with
    | some rest => rest
    | none => l
  else l

/-- `cleanupType` (current engine): collapse whitespace, strip the trailing
nullable marker, strip `System.` and `Microsoft.*.` prefixes, trim. -/
def cleanupType (type : String) : String :=
  String.mk (trimChars (stripMicrosoft (stripSystem (stripNullable (collapseWsAux false type.data)))))

def digitsToNat (ds : List Char) : Nat :=
  ds.foldl (fun n c => n * 10 + (c.toNat - 48)) 0

/-- Attempt `Display\s*\(\s*Name\s*=\s*"([^"]+)"` at the current position. -/
def matchDisplayAt (l : List Char) : Option String :=
  if "Display".data.isPrefixOf l then
    match (l.drop 7).dropWhile isWsChar with
    | '(' :: r =>
      let r1 := r.dropWhile isWsChar
      if "Name".data.isPrefixOf r1 then
        match (r1.drop 4).dropWhile isWsChar with
        | '=' :: r3 =>
          match r3.dropWhile isWsChar with
          | '"' :: r5 =>
            let body := r5.takeWhile (fun c => c ≠ '"')
            if body.isEmpty then none
            else
              match r5.dropWhile (fun c => c ≠ '"') with
              | '"' :: _ => some (String.mk body)
              | _ => none
          | _ => none
        | _ => none
      else none
    | _ => none
  else none

/-- Attempt `Description\s*\(\s*"([^"]+)"` at the current position. -/
def matchDescriptionAt (l : List Char) : Option String :=
  if "Description".data.isPrefixOf l then
    match (l.drop 11).dropWhile isWsChar with
    | '(' :: r =>
      match r.dropWhile isWsChar with
      | '"' :: r2 =>
        let body := r2.takeWhile (fun c => c ≠ '"')
        if body.isEmpty then none
        else
          match r2.dropWhile (fun c => c ≠ '"') with
          | '"' :: _ => some (String.mk body)
          | _ => none
      | _ => none
    | _ => none
  else none

/-- Attempt `<lit>\s*\(\s*(\d+)` at the current position. -/
def matchLitNumAt (lit l : List Char) : Option Nat :=
  if lit.isPrefixOf l then
    match (l.drop lit.length).dropWhile isWsChar with
    | '(' :: r =>
      let ds := (r.dropWhile isWsChar).takeWhile Char.isDigit
      if ds.isEmpty then none else some (digitsToNat ds)
    | _ => none
  else none

/-- Leftmost unanchored search for the display-name pattern. -/
def searchDisplayName : List Char → Option String
  | [] => none
  | c :: t =>
    match matchDisplayAt (c :: t) with
    | some v => some v
    | none => searchDisplayName t

/-- Leftmost unanchored search for the description pattern. -/
def searchDescription : List Char → Option String
  | [] => none
  | c :: t =>
    match matchDescriptionAt (c :: t) with
    | some v => some v
    | none => searchDescription t

/-- Leftmost unanchored search for `(?:MaxLength|StringLength)\s*\(\s*(\d+)`,
alternatives in regex order. -/
def searchMaxLength : List Char → Option Nat
  | [] => none
  | c :: t =>
    match matchLitNumAt "MaxLength".data (c :: t) with
    | some v => some v
    | none =>
      match matchLitNumAt "StringLength".data (c :: t) with
      | some v => some v
      | none => searchMaxLength t

/-- Leftmost unanchored search for `MinLength\s*\(\s*(\d+)`. -/
def searchMinLength : List Char → Option Nat
  | [] => none
  | c :: t =>
    match matchLitNumAt "MinLength".data (c :: t) with
    | some v => some v
    | none => searchMinLength t

/-- The optional-metadata record produced by `extractAttributeMetadata`. -/
structure AttributeMetadata where
  displayName : Option String := none
  description : Option String := none
  maxLength : Option Nat := none
  minLength : Option Nat := none
deriving DecidableEq

/-- One iteration of the `extractAttributeMetadata` loop: each of the four
patterns overwrites its field when found. -/
def updateMetadata (m : AttributeMetadata) (attr : String) : AttributeMetadata :=
  let m1 := match searchDisplayName attr.data with
    | some v => { m with displayName := some v }
    | none => m
  let m2 := match searchDescription attr.data with
    | some v => { m1 with description := some v }
    | none => m1
  let m3 := match searchMaxLength attr.data with
    | some v => { m2 with maxLength := some v }
    | none => m2
  match searchMinLength attr.data with
  | some v => { m3 with minLength := some v }
  | none => m3

/-- `extractAttributeMetadata(attributes)`. -/
def extractAttributeMetadata (attributes : List String) : AttributeMetadata :=
  attributes.foldl updateMetadata {}

/-- `TYPE_MAPPINGS` in `Map` insertion order. -/
def TYPE_MAPPINGS : List (String × String) :=
  [("datetime", "datetime-local"), ("datetimeoffset", "datetime-local"),
   ("date", "date"), ("time", "time"), ("timespan", "time"),
   ("int", "number"), ("integer", "number"), ("long", "number"),
   ("short", "number"), ("byte", "number"), ("decimal", "number"),
   ("double", "number"), ("float", "number"),
   ("bool", "checkbox"), ("boolean", "checkbox"),
   ("string", "text"), ("char", "text"), ("guid", "text"), ("uuid", "text")]

/-- `ATTRIBUTE_MAPPINGS` in `Map` insertion order. -/
def ATTRIBUTE_MAPPINGS : List (String × String) :=
  [("email", "email"), ("phone", "tel"), ("password", "password"),
   ("url", "url"), ("color", "color"), ("range", "range"),
   ("file", "file"), ("hidden", "hidden")]

/-- `getInputTypeForProperty` (current engine): attribute keywords first,
then type keywords, both first-match-wins, defaulting to `"text"`. -/
def getInputTypeForProperty (property : ModelProperty) : String :=
  let type := lowerStr property.type
  let attributes := property.attributes.map lowerStr
  match ATTRIBUTE_MAPPINGS.find? (fun kv => attributes.any (fun attr => containsStr attr kv.1)) with
  | some kv => kv.2
  | none =>
    match TYPE_MAPPINGS.find? (fun kv => containsStr type kv.1) with
    | some kv => kv.2
    | none => "text"

/-- The `attributes.some(attr => attr.toLowerCase().includes('required'))`
test of `createModelProperty`. -/
def hasRequiredAttr (attributes : List String) : Bool :=
  attributes.any (fun attr => containsStr (lowerStr attr) "required")

/-- `createModelProperty(name, type, attributes)` (current engine). -/
def createModelProperty (name type : String) (attributes : List String) : ModelProperty :=
  let cleanType := cleanupType type
  let isNullable := type.data.contains '?'
  let isPrimaryKey :=
    lowerStr name == "id"
      || endsWithStr (lowerStr name) "id"
      || attributes.any (fun attr => containsStr (lowerStr attr) "key")
  let isRequired :=
    (!isNullable && !isPrimaryKey && !hasRequiredAttr attributes) || hasRequiredAttr attributes
  let metadata := extractAttributeMetadata attributes
  { name := name, type := cleanType, isPrimaryKey := isPrimaryKey,
    isRequired := isRequired, isNullable := isNullable, attributes := attributes,
    inputType := some (getInputTypeForProperty
      { name := name, type := cleanType, isPrimaryKey := isPrimaryKey,
        isRequired := isRequired, isNullable := isNullable, attributes := attributes }),
    displayName := metadata.displayName, description := metadata.description,
    maxLength := metadata.maxLength, minLength := metadata.minLength }

/-! ### The line scan (`parsePropertiesFromContent`) -/

/-- State of the `parsePropertiesFromContent` loop.  `props` accumulates
emitted properties in reverse order. -/
structure ParseState where
  currentAttributes : List String
  isInClass : Bool
  braceLevel : Int
  props : List ModelProperty
deriving DecidableEq

/-- One iteration of the `parsePropertiesFromContent` line loop. -/
def stepLine (st : ParseState) (rawLine : List Char) : ParseState :=
  let line := trimChars rawLine
  if line.isEmpty || "using ".data.isPrefixOf line || "namespace ".data.isPrefixOf line then st
  else
    let braceLevel := st.braceLevel + (line.count '\x7b' : Int) - (line.count '\x7d' : Int)
    if !st.isInClass && containsSub line "class ".data then
      { st with braceLevel := braceLevel, isInClass := true }
    else if st.isInClass && braceLevel == 0 then
      { st with braceLevel := braceLevel, isInClass := false }
    else if !st.isInClass then
      { st with braceLevel := braceLevel }
    else
      let attrCapture :=
        match attributeLineMatch line with
        | some body => if body.isEmpty then none else some body
        | none => none
      match attrCapture with
      | some body =>
        { st with
          braceLevel := braceLevel,
          currentAttributes := st.currentAttributes ++ [String.mk body] }
      | none =>
        match propertyLineMatch line with
        | some (rawType, name) =>
          let type := String.mk (trimChars rawType.data)
          if shouldSkipProperty name st.currentAttributes then
            { st with braceLevel := braceLevel, currentAttributes := [] }
          else
            { st with
              braceLevel := braceLevel,
              currentAttributes := [],
              props := createModelProperty name type st.currentAttributes :: st.props }
        | none =>
          if !line.contains '[' && !line.contains '\x7b' && !line.contains '\x7d' then
            { st with braceLevel := braceLevel, currentAttributes := [] }
          else
            { st with braceLevel := braceLevel }

/-- `parsePropertiesFromContent(content)` (current engine). -/
def parsePropertiesFromContent (content : String) : List ModelProperty :=
  ((splitLines content.data).foldl stepLine ⟨[], false, 0, []⟩).props.reverse

/-- `extractPropertiesFromContent(content, className)` (current engine): the
source tests a class-header regex, but both the match and the no-match branch
return `parsePropertiesFromContent(cleanContent)`, so the function reduces to
that call; `className` is only used by the vacuous test. -/
def extractPropertiesFromContent (content : String) (_className : String) : List ModelProperty :=
  parsePropertiesFromContent (cleanSourceCode content)

/-! ### The extraction cache (`ModelCache` of `src/src/cache.ts`)

The JS `Map` is modelled as an insertion-ordered association list: `set` on an
existing key updates it in place, a new key is appended, and iteration order
is list order.  `fs.statSync(filePath).mtimeMs` is passed in as an
`Option Nat` (`none` models a thrown file-system error), and `Date.now()` as
an explicit `now` parameter. -/

def maxCacheSize : Nat := 100

def cacheExpirationMs : Nat := 5 * 60 * 1000

/-- `ModelCacheEntry` of `src/src/types.ts`. -/
structure ModelCacheEntry where
  modelType : String
  properties : List ModelProperty
  lastModified : Nat
  filePath : String
deriving DecidableEq

/-- The cache state: the entries of the underlying `Map`, in insertion
order. -/
structure ModelCache where
  entries : List (String × ModelCacheEntry)
deriving DecidableEq

/-- `Map.prototype.set`: update the first occurrence in place, else append. -/
def mapSet (l : List (String × ModelCacheEntry)) (k : String) (v : ModelCacheEntry) :
    List (String × ModelCacheEntry) :=
  match l with
  | [] => [(k, v)]
  | (k', v') :: t => if k' = k then (k', v) :: t else (k', v') :: mapSet t k v

namespace ModelCache

/-- `Map.prototype.get`. -/
def lookupEntry (c : ModelCache) (k : String) : Option ModelCacheEntry :=
  (c.entries.find? (fun e => e.1 = k)).map (fun e => e.2)

/-- `Map.prototype.delete` (the state part). -/
def deleteEntry (c : ModelCache) (k : String) : ModelCache :=
  ⟨c.entries.filter (fun e => ¬ e.1 = k)⟩

/-- `ModelCache.get(modelType, filePath)`: returns the hit (if any) and the
resulting cache state.  `stat` is `statSync(filePath).mtimeMs`, `none` when
the stat throws; `now` is `Date.now()`. -/
def get (c : ModelCache) (modelType : String) (now : Nat) (stat : Option Nat) :
    Option (List ModelProperty) × ModelCache :=
  match c.lookupEntry modelType with
  | none => (none, c)
  | some entry =>
    match stat with
    | none => (none, c.deleteEntry modelType)
    | some mtimeMs =>
      if mtimeMs > entry.lastModified then (none, c.deleteEntry modelType)
      else if now - entry.lastModified > cacheExpirationMs then (none, c.deleteEntry modelType)
      else (some entry.properties, c)

/-- `ModelCache.set(modelType, filePath, properties)`.  At the size bound the
first key of the `Map` iterator is deleted, but only when it is truthy: the
empty string is falsy in JS and is then not deleted.  A failing stat skips
the insertion (but not the eviction). -/
def set (c : ModelCache) (modelType filePath : String) (properties : List ModelProperty)
    (stat : Option Nat) : ModelCache :=
  let c1 :=
    if maxCacheSize ≤ c.entries.length then
      match c.entries.head? with
      | some (firstKey, _) => if firstKey = "" then c else c.deleteEntry firstKey
      | none => c
    else c
  match stat with
  | none => c1
  | some mtimeMs =>
    ⟨mapSet c1.entries modelType
      ⟨modelType, properties, mtimeMs, filePath⟩⟩

/-- `ModelCache.clear()`. -/
def clear (_c : ModelCache) : ModelCache := ⟨[]⟩

/-- `ModelCache.delete(modelType)`: returned flag and new state. -/
def deleteOp (c : ModelCache) (modelType : String) : Bool × ModelCache :=
  ((c.lookupEntry modelType).isSome, c.deleteEntry modelType)

/-- The `size` accessor. -/
def size (c : ModelCache) : Nat := c.entries.length

/-- `ModelCache.cleanup()`: remove every expired entry. -/
def cleanup (c : ModelCache) (now : Nat) : ModelCache :=
  ⟨c.entries.filter (fun e => ¬ now - e.2.lastModified > cacheExpirationMs)⟩

end ModelCache

/-! ### The extraction entry point (`parseModelProperties`)

`vscode.workspace.findFiles` is modelled by a `findFiles : String → List
String` oracle from glob pattern to paths, `fs.promises.readFile` by
`readFile : String → Option String` (`none` = rejection), and
`fs.statSync(path).mtimeMs` by `statFile : String → Option Nat`. -/

/-- The search-pattern loop of `findModelFiles`. -/
def findModelFiles (findFiles : String → List String) (className : String) : List String :=
  let patterns :=
    ["**/" ++ className ++ ".cs",
     "**/Models/" ++ className ++ ".cs",
     "**/Models/**/" ++ className ++ ".cs",
     "**/*Models*/" ++ className ++ ".cs",
     "**/Entities/" ++ className ++ ".cs",
     "**/Domain/" ++ className ++ ".cs"]
  let rec go : List String → List String
    | [] => []
    | p :: rest =>
      match findFiles p with
      | [] => go rest
      | fs => fs
  go patterns

/-- `selectBestModelFile(files)`: prefer a path containing `Models`,
`Entities` or `Domain`, else the first; `none` models the (unreachable)
thrown error on an empty list. -/
def selectBestModelFile (files : List String) : Option String :=
  match files with
  | [] => none
  | [f] => some f
  | f :: _ =>
    match files.find? (fun g => containsStr g "Models") with
    | some g => some g
    | none =>
      match files.find? (fun g => containsStr g "Entities") with
      | some g => some g
      | none =>
        match files.find? (fun g => containsStr g "Domain") with
        | some g => some g
        | none => some f

/-- `parseModelProperties(modelType, projectRoot)` (current engine): validate
the type name, locate the file, consult the cache, else read, parse and
cache.  Returns the property list and the resulting cache state.  Every
internal failure is caught and degrades to `[]`. -/
def parseModelProperties (modelType : String)
    (findFiles : String → List String) (readFile : String → Option String)
    (c : ModelCache) (now : Nat) (statFile : String → Option Nat) :
    List ModelProperty × ModelCache :=
  if (trimChars modelType.data).isEmpty then ([], c)
  else
    match (splitOnChar '.' modelType.data).getLast? with
    | none => ([], c)
    | some classNameChars =>
      if classNameChars.isEmpty then ([], c)
      else
        let className := String.mk classNameChars
        match findModelFiles findFiles className with
        | [] => ([], c)
        | f :: fs =>
          match selectBestModelFile (f :: fs) with
          | none => ([], c)
          | some modelFile =>
            match c.get modelType now (statFile modelFile) with
            | (some cached, c1) => (cached, c1)
            | (none, c1) =>
              match readFile modelFile with
              | none => ([], c1)
              | some content =>
                let props := extractPropertiesFromContent content className
                (props, c1.set modelType modelFile props (statFile modelFile))

end ViewHelper

namespace LegacyParser

open ViewHelper (isWsChar trimChars splitLines containsSub containsStr lowerStr endsWithStr
  removeBlockComments removeLineComments attributeLineMatch propertyLineMatch
  collapseWsAux stripNullable stripSystem hasRequiredAttr)

/-- `ModelProperty` of `aspnetcore-view-helper/src/types.ts` (the legacy
shape; `inputType` is never populated by the legacy parser). -/
structure ModelProperty where
  name : String
  type : String
  isPrimaryKey : Bool
  isRequired : Bool
  attributes : List String
  inputType : Option String := none
deriving DecidableEq

/-- Matcher for the legacy string/char literal regexes `"[^"]*"` and
`'[^']*'`: no escape handling, interior may span lines. -/
def matchSimpleQuoted (q : Char) : List Char → Option (List Char)
  | [] => none
  | c :: rest => if c = q then some rest else matchSimpleQuoted q rest

/-- Replacement of a legacy quoted-literal regex by the empty literal. -/
def removeSimpleQuotedPassF (q : Char) : Nat → List Char → List Char
  | 0, l => l
  | _ + 1, [] => []
  | fuel + 1, c :: rest =>
    if c = q then
      match matchSimpleQuoted q rest with
      | some rest2 => q :: q :: removeSimpleQuotedPassF q fuel rest2
      | none => c :: removeSimpleQuotedPassF q fuel rest
    else c :: removeSimpleQuotedPassF q fuel rest

def removeSimpleQuotedPass (q : Char) (l : List Char) : List Char :=
  removeSimpleQuotedPassF q l.length l

/-- The inline cleaning of `parsePropertiesFromFullContent`: block comments,
line comments, `"[^"]*"` → `""`, `'[^']*'` → `''`. -/
def cleanContentLegacy (l : List Char) : List Char :=
  removeSimpleQuotedPass '\'' (removeSimpleQuotedPass '"' (removeLineComments (removeBlockComments l)))

/-- `cleanupType` (legacy engine: no Microsoft-prefix stripping). -/
def cleanupType (type : String) : String :=
  String.mk (trimChars (stripSystem (stripNullable (collapseWsAux false type.data))))

/-- State of the legacy line loop. -/
structure ParseState where
  currentAttributes : List String
  collectingAttributes : Bool
  props : List ModelProperty
deriving DecidableEq

/-- One iteration of the legacy `parsePropertiesFromFullContent` loop.  The
legacy loop has no class/brace tracking and no skip policy; an attribute line
is pushed even when its capture is empty; `isRequired` is
`!type.includes('?') || <required attribute>`. -/
def stepLine (st : ParseState) (rawLine : List Char) : ParseState :=
  let line := trimChars rawLine
  if line.isEmpty || "using ".data.isPrefixOf line || "namespace ".data.isPrefixOf line then st
  else
    match attributeLineMatch line with
    | some body =>
      { st with
        currentAttributes := st.currentAttributes ++ [String.mk body],
        collectingAttributes := true }
    | none =>
      match propertyLineMatch line with
      | some (rawType, name) =>
        let type := String.mk (trimChars rawType.data)
        let isPrimaryKey :=
          lowerStr name == "id"
            || endsWithStr (lowerStr name) "id"
            || st.currentAttributes.any (fun attr => containsStr (lowerStr attr) "key")
        let isRequired := !(type.data.contains '?') || hasRequiredAttr st.currentAttributes
        { currentAttributes := [],
          collectingAttributes := false,
          props :=
            { name := name, type := cleanupType type, isPrimaryKey := isPrimaryKey,
              isRequired := isRequired, attributes := st.currentAttributes } :: st.props }
      | none =>
        if !st.collectingAttributes
            && (line.contains '\x7b' || line.contains '\x7d' || line.contains ';') then
          { st with currentAttributes := [], collectingAttributes := false }
        else st

/-- `parsePropertiesFromFullContent(content)` (legacy engine). -/
def parsePropertiesFromFullContent (content : String) : List ModelProperty :=
  ((splitLines (cleanContentLegacy content.data)).foldl stepLine ⟨[], false, []⟩).props.reverse

/-- `getInputTypeForProperty` (legacy engine): the if/else chain. -/
def getInputTypeForProperty (property : ModelProperty) : String :=
  let type := lowerStr property.type
  let attributes := property.attributes.map lowerStr
  if attributes.any (fun attr => containsStr attr "email") then "email"
  else if attributes.any (fun attr => containsStr attr "phone") then "tel"
  else if attributes.any (fun attr => containsStr attr "password") then "password"
  else if attributes.any (fun attr => containsStr attr "url") then "url"
  else if attributes.any (fun attr => containsStr attr "color") then "color"
  else if containsStr type "datetime" then "datetime-local"
  else if containsStr type "date" && !containsStr type "datetime" then "date"
  else if containsStr type "time" then "time"
  else if containsStr type "bool" then "checkbox"
  else if containsStr type "int" || containsStr type "long"
      || containsStr type "short" || containsStr type "byte" then "number"
  else if containsStr type "decimal" || containsStr type "double"
      || containsStr type "float" then "number"
  else if containsStr type "guid" then "text"
  else "text"

end LegacyParser

namespace ViewHelper

/-! ### Concrete instances used by the verification -/

/-- The end-to-end source text of the specification's scenario: a class with
exactly `public int Id { get; set; }` and `public string Name { get; set; }`
and no annotations. -/
def srcC3 : String :=
  "public class Product\n\x7b\n    public int Id \x7b get; set; \x7d\n    public string Name \x7b get; set; \x7d\n\x7d\n"

/-- A minimal model source with a single `Name` property. -/
def srcNameOnly : String :=
  "public class Product\n\x7b\npublic string Name \x7b get; set; \x7d\n\x7d\n"

/-- File-search oracle that finds one candidate for every pattern. -/
def findOracle : String → List String := fun _ => ["Models/Product.cs"]

/-- File-read oracle that returns `srcNameOnly` for every path. -/
def readOracle : String → Option String := fun _ => some srcNameOnly

/-- Stat oracle: every file has modification time `0`. -/
def statOracle : String → Option Nat := fun _ => some 0

/-- A sample extracted property used in the cache scenarios. -/
def sampleProp : ModelProperty := createModelProperty "Name" "string" []

/-- A method-with-body line: not blank, not `using`/`namespace`, not an
attribute line, not a property line — yet it contains braces. -/
def lineC6 : List Char := "public void Foo() \x7b Bar(); \x7d".data

/-- The single property extracted from `srcNameOnly`. -/
def c7prop : ModelProperty := createModelProperty "Name" "string" []

/-- A cache filled through the public `set` API with 100 entries whose
first-inserted key is the empty string (the empty string is a legal
`modelType` argument of `ModelCache.set`). -/
def c100 : ModelCache :=
  (List.range 100).foldl
    (fun c i => c.set (if i = 0 then "" else Nat.repr i) "f" [] (some 0)) ⟨[]⟩

/-- A cache filled through the public `set` API with 100 entries, keys
`"1"` … `"100"`. -/
def c100N : ModelCache :=
  (List.range 100).foldl (fun c i => c.set (Nat.repr (i + 1)) "f" [] (some 0)) ⟨[]⟩

/-- Claim-side form of the second lookup tier of `getInputTypeForProperty`
(the declared-type table on its own), used to state the precedence claim. -/
def specTypeKindLookup (type : String) : String :=
  match TYPE_MAPPINGS.find? (fun kv => containsStr (lowerStr type) kv.1) with
  | some kv => kv.2
  | none => "text"

end ViewHelper
namespace ViewHelper

/-! ### The normalizer only ever deletes characters

Each pass produces a sublist (subsequence) of its input: replaced regions
always contain the delimiter characters that the replacement re-emits.  This
yields the corrected form of the line-count property. -/

theorem findClose_sublist (l : List Char) : ∀ r, findClose l = some r → r.Sublist l := by
  induction l using findClose.induct with
  | case1 => intro r h; simp [findClose] at h
  | case2 a => intro r h; simp [findClose] at h
  | case3 a b rest hcond =>
    intro r h
    simp only [findClose, if_pos hcond] at h
    injection h with h
    subst h
    exact (List.sublist_cons_self _ _).trans (List.sublist_cons_self _ _)
  | case4 a b rest hcond ih =>
    intro r h
    simp only [findClose, if_neg hcond] at h
    exact (ih r h).trans (List.sublist_cons_self _ _)

theorem removeBlockCommentsF_sublist (fuel : Nat) :
    ∀ l : List Char, (removeBlockCommentsF fuel l).Sublist l := by
  induction fuel with
  | zero => intro l; simp [removeBlockCommentsF]
  | succ fuel ih =>
    intro l
    match l with
    | [] => simp [removeBlockCommentsF]
    | [c] => simp [removeBlockCommentsF]
    | a :: b :: rest =>
      by_cases hcond : a = '/' ∧ b = '*'
      · simp only [removeBlockCommentsF, if_pos hcond]
        cases hfc : findClose rest with
        | some rest2 =>
          exact ((ih rest2).trans (findClose_sublist rest rest2 hfc)).trans
            ((List.sublist_cons_self _ _).trans (List.sublist_cons_self _ _))
        | none =>
          exact (ih (b :: rest)).cons₂ a
      · simp only [removeBlockCommentsF, if_neg hcond]
        exact (ih (b :: rest)).cons₂ a

theorem dropToEol_sublist (l : List Char) : (dropToEol l).Sublist l := by
  induction l with
  | nil => simp [dropToEol]
  | cons c rest ih =>
    by_cases h : c = '\n'
    · simp [dropToEol, h]
    · simp only [dropToEol, if_neg h]
      exact ih.trans (List.sublist_cons_self _ _)

theorem removeLineCommentsF_sublist (fuel : Nat) :
    ∀ l : List Char, (removeLineCommentsF fuel l).Sublist l := by
  induction fuel with
  | zero => intro l; simp [removeLineCommentsF]
  | succ fuel ih =>
    intro l
    match l with
    | [] => simp [removeLineCommentsF]
    | [c] => simp [removeLineCommentsF]
    | a :: b :: rest =>
      by_cases hcond : a = '/' ∧ b = '/'
      · simp only [removeLineCommentsF, if_pos hcond]
        exact ((ih (dropToEol rest)).trans (dropToEol_sublist rest)).trans
          ((List.sublist_cons_self _ _).trans (List.sublist_cons_self _ _))
      · simp only [removeLineCommentsF, if_neg hcond]
        exact (ih (b :: rest)).cons₂ a

theorem matchQuoted_structure (q : Char) :
    ∀ l r : List Char, matchQuoted q l = some r → ∃ pre, l = pre ++ q :: r
  | [], r, h => by simp [matchQuoted] at h
  | [c], r, h => by
    simp only [matchQuoted] at h
    by_cases hc : c = q
    · rw [if_pos hc] at h
      injection h with h
      exact ⟨[], by simp [hc, ← h]⟩
    · rw [if_neg hc] at h
      simp at h
  | c :: d :: rest, r, h => by
    simp only [matchQuoted] at h
    by_cases hc : c = q
    · rw [if_pos hc] at h
      injection h with h
      exact ⟨[], by simp [hc, ← h]⟩
    · rw [if_neg hc] at h
      by_cases hb : c = '\\'
      · rw [if_pos hb] at h
        by_cases hnl : d = '\n' ∨ d = '\r'
        · rw [if_pos hnl] at h
          simp at h
        · rw [if_neg hnl] at h
          obtain ⟨pre, hpre⟩ := matchQuoted_structure q rest r h
          exact ⟨c :: d :: pre, by simp [hpre]⟩
      · rw [if_neg hb] at h
        obtain ⟨pre, hpre⟩ := matchQuoted_structure q (d :: rest) r h
        exact ⟨c :: pre, by simp [hpre]⟩

theorem removeQuotedPassF_sublist (q : Char) (fuel : Nat) :
    ∀ l : List Char, (removeQuotedPassF q fuel l).Sublist l := by
  induction fuel with
  | zero => intro l; simp [removeQuotedPassF]
  | succ fuel ih =>
    intro l
    match l with
    | [] => simp [removeQuotedPassF]
    | c :: rest =>
      by_cases hc : c = q
      · simp only [removeQuotedPassF, if_pos hc]
        cases hm : matchQuoted q rest with
        | some rest2 =>
          obtain ⟨pre, hpre⟩ := matchQuoted_structure q rest rest2 hm
          rw [hc, hpre]
          refine List.Sublist.cons₂ _ ?_
          exact ((ih rest2).cons₂ q).trans (List.sublist_append_right pre _)
        | none =>
          exact (ih rest).cons₂ c
      · simp only [removeQuotedPassF, if_neg hc]
        exact (ih rest).cons₂ c

theorem matchVerbatim_structure :
    ∀ l r : List Char, matchVerbatim l = some r → ∃ pre, l = pre ++ '"' :: r
  | [], r, h => by simp [matchVerbatim] at h
  | [c], r, h => by
    simp only [matchVerbatim] at h
    by_cases hc : c = '"'
    · rw [if_pos hc] at h
      injection h with h
      exact ⟨[], by simp [hc, ← h]⟩
    · rw [if_neg hc] at h
      simp at h
  | c :: d :: rest, r, h => by
    simp only [matchVerbatim] at h
    by_cases hc : c = '"'
    · rw [if_pos hc] at h
      by_cases hd : d = '"'
      · rw [if_pos hd] at h
        split at h
        · rename_i r' hm
          injection h with h
          subst h
          obtain ⟨pre, hpre⟩ := matchVerbatim_structure rest r' hm
          exact ⟨c :: d :: pre, by simp [hpre]⟩
        · injection h with h
          exact ⟨[], by simp [hc, ← h]⟩
      · rw [if_neg hd] at h
        injection h with h
        exact ⟨[], by simp [hc, ← h]⟩
    · rw [if_neg hc] at h
      obtain ⟨pre, hpre⟩ := matchVerbatim_structure (d :: rest) r h
      exact ⟨c :: pre, by simp [hpre]⟩

theorem removeVerbatimPassF_sublist (fuel : Nat) :
    ∀ l : List Char, (removeVerbatimPassF fuel l).Sublist l := by
  induction fuel with
  | zero => intro l; simp [removeVerbatimPassF]
  | succ fuel ih =>
    intro l
    match l with
    | [] => simp [removeVerbatimPassF]
    | [c] => simp [removeVerbatimPassF]
    | a :: b :: rest =>
      by_cases hcond : a = '@' ∧ b = '"'
      · simp only [removeVerbatimPassF, if_pos hcond]
        cases hm : matchVerbatim rest with
        | some rest2 =>
          obtain ⟨pre, hpre⟩ := matchVerbatim_structure rest rest2 hm
          refine List.Sublist.cons _ ?_
          rw [hcond.2, hpre]
          refine List.Sublist.cons₂ _ ?_
          exact ((ih rest2).cons₂ '"').trans (List.sublist_append_right pre _)
        | none =>
          exact (ih (b :: rest)).cons₂ a
      · simp only [removeVerbatimPassF, if_neg hcond]
        exact (ih (b :: rest)).cons₂ a

theorem cleanSourceCode_sublist (s : String) :
    (cleanSourceCode s).data.Sublist s.data := by
  have h1 : (removeBlockComments s.data).Sublist s.data :=
    removeBlockCommentsF_sublist _ _
  have h2 : (removeLineComments (removeBlockComments s.data)).Sublist
      (removeBlockComments s.data) := removeLineCommentsF_sublist _ _
  have h3 : (removeQuotedPass '"' (removeLineComments (removeBlockComments s.data))).Sublist
      (removeLineComments (removeBlockComments s.data)) := removeQuotedPassF_sublist _ _ _
  have h4 : (removeQuotedPass '\''
        (removeQuotedPass '"' (removeLineComments (removeBlockComments s.data)))).Sublist
      (removeQuotedPass '"' (removeLineComments (removeBlockComments s.data))) :=
    removeQuotedPassF_sublist _ _ _
  have h5 : (removeVerbatimPass (removeQuotedPass '\''
        (removeQuotedPass '"' (removeLineComments (removeBlockComments s.data))))).Sublist
      (removeQuotedPass '\''
        (removeQuotedPass '"' (removeLineComments (removeBlockComments s.data)))) :=
    removeVerbatimPassF_sublist _ _
  exact ((((h5.trans h4).trans h3).trans h2).trans h1)

theorem splitOnChar_ne_nil (sep : Char) (l : List Char) : splitOnChar sep l ≠ [] := by
  cases l with
  | nil => simp [splitOnChar]
  | cons c rest =>
    simp only [splitOnChar]
    by_cases hc : c = sep
    · simp [hc]
    · rw [if_neg hc]
      cases splitOnChar sep rest <;> simp

theorem splitOnChar_length (sep : Char) (l : List Char) :
    (splitOnChar sep l).length = l.count sep + 1 := by
  induction l with
  | nil => simp [splitOnChar]
  | cons c rest ih =>
    simp only [splitOnChar]
    by_cases hc : c = sep
    · simp [hc, List.count_cons, ih]
    · rw [if_neg hc]
      have hne := splitOnChar_ne_nil sep rest
      cases hsp : splitOnChar sep rest with
      | nil => exact absurd hsp hne
      | cons h t =>
        have : rest.count sep + 1 = t.length + 1 := by
          rw [← ih, hsp]
          simp
        simp only [List.length_cons, List.count_cons]
        simp [hc, this]

theorem splitLines_length (l : List Char) :
    (splitLines l).length = l.count '\n' + 1 :=
  splitOnChar_length '\n' l

end ViewHelper

namespace ViewHelper

/-! ### C2 — normalization and line count -/

/-- C2 (counterexample): normalization does not preserve the exact line
count — a block comment spanning two lines is deleted together with its line
break, so the two-line input `/*\n*/` normalizes to a one-line output. -/
theorem clean_line_count_counterexample :
    countLines (cleanSourceCode "/*\n*/") ≠ countLines "/*\n*/" := by decide

/-- C2 (amended): normalization never increases the line count (its output is
a subsequence of its input), but it can decrease it: multi-line block
comments, and string literals spanning lines, are deleted together with their
line breaks.  Line comments and single-line literals are replaced in place. -/
theorem clean_line_count_le (s : String) :
    countLines (cleanSourceCode s) ≤ countLines s := by
  have h := (cleanSourceCode_sublist s).count_le '\n'
  simp only [countLines, splitLines_length]
  omega

/-! ### Cache lemmas shared by the cache claims -/

theorem find?_mapSet_self (l : List (String × ModelCacheEntry)) (k : String)
    (v : ModelCacheEntry) :
    (mapSet l k v).find? (fun e => e.1 = k) = some (k, v) := by
  induction l with
  | nil => simp [mapSet, List.find?]
  | cons e t ih =>
    obtain ⟨k', v'⟩ := e
    simp only [mapSet]
    by_cases hk : k' = k
    · subst hk
      simp [List.find?]
    · rw [if_neg hk]
      simp only [List.find?]
      have : (decide (k' = k)) = false := by simp [hk]
      rw [this, ih]

theorem find?_mapSet_ne (l : List (String × ModelCacheEntry)) (k k' : String)
    (v : ModelCacheEntry) (h : k' ≠ k) :
    (mapSet l k v).find? (fun e => e.1 = k') = l.find? (fun e => e.1 = k') := by
  induction l with
  | nil =>
    simp only [mapSet]
    rw [List.find?_cons_of_neg _ (by simp [Ne.symm h])]
  | cons e t ih =>
    obtain ⟨k₁, v₁⟩ := e
    simp only [mapSet]
    by_cases hk : k₁ = k
    · subst hk
      rw [if_pos rfl]
      rw [List.find?_cons_of_neg _ (by simp [Ne.symm h]),
        List.find?_cons_of_neg _ (by simp [Ne.symm h])]
    · rw [if_neg hk]
      by_cases hd : k₁ = k'
      · rw [List.find?_cons_of_pos _ (by simp [hd]), List.find?_cons_of_pos _ (by simp [hd])]
      · rw [List.find?_cons_of_neg _ (by simp [hd]), List.find?_cons_of_neg _ (by simp [hd]), ih]

theorem lookupEntry_set_self (c : ModelCache) (T f : String)
    (props : List ModelProperty) (m : Nat) :
    (c.set T f props (some m)).lookupEntry T = some ⟨T, props, m, f⟩ := by
  unfold ModelCache.set ModelCache.lookupEntry
  simp [find?_mapSet_self]

theorem lookupEntry_deleteEntry_self (c : ModelCache) (k : String) :
    (c.deleteEntry k).lookupEntry k = none := by
  unfold ModelCache.deleteEntry ModelCache.lookupEntry
  induction c.entries with
  | nil => simp
  | cons e t ih =>
    by_cases h : e.1 = k
    · simp only [List.filter, h]
      simp only [decide_not]
      simp
    · simp only [List.filter]
      have hd : (decide (¬ e.1 = k)) = true := by simp [h]
      rw [hd]
      rw [List.find?_cons_of_neg _ (by simp [h])]
      exact ih

end ViewHelper

namespace ViewHelper

/-! ### C1 — cache round-trip, invalidation and expiration -/

/-- C1 (counterexample): `set` then an immediate `get` with the file
unchanged can return a miss.  Expiration is measured against the file's
modification time, not the caching time: here the file was last modified at
time 0, the present instant is 300001 (beyond the 5-minute window), the file
is unchanged, yet the `get` issued immediately after `set` misses. -/
theorem cache_roundtrip_counterexample :
    ((ModelCache.set ⟨[]⟩ "App.Product" "Models/Product.cs" [sampleProp] (some 0)).get
      "App.Product" 300001 (some 0)).1 = none := by decide

/-- C1 (amended): after `set` with recorded modification time `m`, a `get`
with the file unchanged returns the identical property sequence exactly when
the current time is within the expiration window measured from `m` (the
file's modification time, not the caching instant); beyond that window the
unchanged-file `get` misses; and a `get` that observes a newer modification
time `m'` misses and removes the entry. -/
theorem cache_set_get_amended (c : ModelCache) (T f : String)
    (props : List ModelProperty) (m now : Nat) :
    (now - m ≤ cacheExpirationMs →
      ((c.set T f props (some m)).get T now (some m)).1 = some props)
    ∧ (cacheExpirationMs < now - m →
      ((c.set T f props (some m)).get T now (some m)).1 = none)
    ∧ (∀ m', m < m' →
      ((c.set T f props (some m)).get T now (some m')).1 = none
        ∧ (((c.set T f props (some m)).get T now (some m')).2).lookupEntry T = none) := by
  have hl := lookupEntry_set_self c T f props m
  refine ⟨?_, ?_, ?_⟩
  · intro h
    simp only [ModelCache.get, hl]
    rw [if_neg (by omega : ¬ m > m), if_neg (by omega : ¬ now - m > cacheExpirationMs)]
  · intro h
    simp only [ModelCache.get, hl]
    rw [if_neg (by omega : ¬ m > m), if_pos (by omega : now - m > cacheExpirationMs)]
  · intro m' hm'
    constructor
    · simp only [ModelCache.get, hl]
      rw [if_pos (by omega : m' > m)]
    · simp only [ModelCache.get, hl]
      rw [if_pos (by omega : m' > m)]
      exact lookupEntry_deleteEntry_self _ T

/-- C1 (witness): the three cases of the amended theorem at concrete
instants. -/
theorem cache_set_get_amended_witness :
    ((ModelCache.set ⟨[]⟩ "App.Product" "Models/Product.cs" [sampleProp] (some 1000)).get
        "App.Product" 2000 (some 1000)).1 = some [sampleProp]
    ∧ ((ModelCache.set ⟨[]⟩ "App.Product" "Models/Product.cs" [sampleProp] (some 0)).get
        "App.Product" 300001 (some 0)).1 = none
    ∧ ((ModelCache.set ⟨[]⟩ "App.Product" "Models/Product.cs" [sampleProp] (some 1000)).get
        "App.Product" 2000 (some 1500)).1 = none :=
  ⟨(cache_set_get_amended ⟨[]⟩ "App.Product" "Models/Product.cs" [sampleProp] 1000 2000).1
      (by decide),
   (cache_set_get_amended ⟨[]⟩ "App.Product" "Models/Product.cs" [sampleProp] 0 300001).2.1
      (by decide),
   ((cache_set_get_amended ⟨[]⟩ "App.Product" "Models/Product.cs" [sampleProp] 1000 2000).2.2
      1500 (by decide)).1⟩

/-! ### C5 — the derived `isRequired` flag -/

/-- C5: `isRequired` is true exactly when (not nullable and not primary key
and no required annotation) or an explicit required annotation is present;
in particular the explicit annotation always forces `isRequired`. -/
theorem isRequired_formula (name type : String) (attributes : List String) :
    ((createModelProperty name type attributes).isRequired
      = ((!(createModelProperty name type attributes).isNullable
            && !(createModelProperty name type attributes).isPrimaryKey
            && !hasRequiredAttr attributes)
          || hasRequiredAttr attributes))
    ∧ (hasRequiredAttr attributes = true →
        (createModelProperty name type attributes).isRequired = true) := by
  constructor
  · rfl
  · intro h
    simp [createModelProperty, h]

/-- C5 (witness): a nullable-typed property carrying a `Required` annotation
classifies as required — the annotation overrides the nullable default. -/
theorem isRequired_formula_witness :
    (createModelProperty "Note" "string?" ["Required"]).isNullable = true
    ∧ (createModelProperty "Note" "string?" ["Required"]).isRequired = true :=
  ⟨by decide, (isRequired_formula "Note" "string?" ["Required"]).2 (by decide)⟩

/-! ### C8 — input-kind mapping precedence -/

/-- C8: the input-kind function checks the attribute-keyword table first —
an email-designation annotation forces `"email"` regardless of the declared
type — then the declared-type table on its own (`specTypeKindLookup`), and
defaults to `"text"` when neither table matches. -/
theorem input_kind_precedence (property : ModelProperty) :
    ((property.attributes.map lowerStr).any (fun attr => containsStr attr "email") = true →
      getInputTypeForProperty property = "email")
    ∧ (ATTRIBUTE_MAPPINGS.all
          (fun kv => !(property.attributes.map lowerStr).any
            (fun attr => containsStr attr kv.1)) = true →
        getInputTypeForProperty property = specTypeKindLookup property.type)
    ∧ (ATTRIBUTE_MAPPINGS.all
          (fun kv => !(property.attributes.map lowerStr).any
            (fun attr => containsStr attr kv.1)) = true →
        TYPE_MAPPINGS.all (fun kv => !containsStr (lowerStr property.type) kv.1) = true →
      getInputTypeForProperty property = "text") := by
  refine ⟨?_, ?_, ?_⟩
  · intro h
    simp only [getInputTypeForProperty, ATTRIBUTE_MAPPINGS]
    rw [List.find?_cons_of_pos _ (by simpa using h)]
  · intro h
    have hnone : ATTRIBUTE_MAPPINGS.find?
        (fun kv => (property.attributes.map lowerStr).any
          (fun attr => containsStr attr kv.1)) = none := by
      rw [List.find?_eq_none]
      intro kv hkv
      have := List.all_eq_true.mp h kv hkv
      simpa using this
    simp only [getInputTypeForProperty, specTypeKindLookup, hnone]
  · intro h h2
    have hnone : ATTRIBUTE_MAPPINGS.find?
        (fun kv => (property.attributes.map lowerStr).any
          (fun attr => containsStr attr kv.1)) = none := by
      rw [List.find?_eq_none]
      intro kv hkv
      have := List.all_eq_true.mp h kv hkv
      simpa using this
    have hnone2 : TYPE_MAPPINGS.find?
        (fun kv => containsStr (lowerStr property.type) kv.1) = none := by
      rw [List.find?_eq_none]
      intro kv hkv
      have := List.all_eq_true.mp h2 kv hkv
      simpa using this
    simp only [getInputTypeForProperty, hnone, hnone2]

/-- C8 (witness): a string-typed property with an email-designation
annotation yields `"email"`, not `"text"`; a property matching neither table
yields `"text"`. -/
theorem input_kind_precedence_witness :
    getInputTypeForProperty (createModelProperty "ContactEmail" "string" ["EmailAddress"])
      = "email"
    ∧ getInputTypeForProperty
        { name := "Notes", type := "CustomThing", isPrimaryKey := false,
          isRequired := true, isNullable := false, attributes := [] } = "text" :=
  ⟨(input_kind_precedence (createModelProperty "ContactEmail" "string" ["EmailAddress"])).1
      (by decide),
   (input_kind_precedence
        { name := "Notes", type := "CustomThing", isPrimaryKey := false,
          isRequired := true, isNullable := false, attributes := [] }).2.2
      (by decide) (by decide)⟩

end ViewHelper

namespace ViewHelper

/-! ### C4 — empty type name at the extraction entry point -/

/-- C4 (counterexample): an empty (or all-whitespace) type name is not a
hard failure — `parseModelProperties` silently returns the empty sequence,
with the same oracles under which a well-formed type name yields a non-empty
one.  (Negation of the claim's "rejected ... rather than silently returning
an empty sequence".) -/
theorem empty_type_name_counterexample :
    (parseModelProperties "" findOracle readOracle ⟨[]⟩ 0 statOracle).1 = []
    ∧ (parseModelProperties "   " findOracle readOracle ⟨[]⟩ 0 statOracle).1 = []
    ∧ (parseModelProperties "App.Product" findOracle readOracle ⟨[]⟩ 0 statOracle).1 ≠ [] := by
  decide

/-- C4 (amended): an empty or all-whitespace type name makes
`parseModelProperties` return the empty sequence immediately — no exception,
no file search, no cache access — indistinguishable from the input-not-found
degradation. -/
theorem empty_type_name_amended (modelType : String)
    (findFiles : String → List String) (readFile : String → Option String)
    (c : ModelCache) (now : Nat) (statFile : String → Option Nat)
    (h : (trimChars modelType.data).isEmpty = true) :
    parseModelProperties modelType findFiles readFile c now statFile = ([], c) := by
  simp [parseModelProperties, h]

/-- C4 (witness): the amended theorem at a whitespace type name and concrete
oracles. -/
theorem empty_type_name_amended_witness :
    parseModelProperties " " findOracle readOracle ⟨[]⟩ 5 statOracle = ([], ⟨[]⟩) :=
  empty_type_name_amended " " findOracle readOracle ⟨[]⟩ 5 statOracle (by decide)

/-! ### C3 — the end-to-end two-property scenario -/

/-- C3 (counterexample): on the current engine the scenario source yields
exactly one property, `Name` — the skip policy (`/^Id$/i` in
`shouldSkipProperty`) drops `Id` before metadata extraction, so the claimed
two-property sequence `[Id, Name]` is not produced. -/
theorem endtoend_two_properties_counterexample :
    (extractPropertiesFromContent srcC3 "Product").map (fun p => p.name) = ["Name"] := by
  decide

/-- C3 (amended): on the current engine the scenario source yields exactly
`[Name]` — not a primary key, required, input kind `"text"` — while the
legacy parser (`modelParser.ts`), which has no skip policy, yields exactly
`[Id, Name]` with `Id` primary key and numeric input kind and `Name` not
primary key, required, with text input kind, as the claim states. -/
theorem endtoend_two_properties_amended :
    ((extractPropertiesFromContent srcC3 "Product").map
        (fun p => (p.name, p.isPrimaryKey, p.isRequired, p.inputType))
      = [("Name", false, true, some "text")])
    ∧ ((LegacyParser.parsePropertiesFromFullContent srcC3).map
        (fun p => (p.name, p.isPrimaryKey, p.isRequired))
      = [("Id", true, true), ("Name", false, true)])
    ∧ ((LegacyParser.parsePropertiesFromFullContent srcC3).map
        (fun p => LegacyParser.getInputTypeForProperty p) = ["number", "text"]) := by
  refine ⟨by decide, by decide, by decide⟩

end ViewHelper

namespace ViewHelper

/-! ### C6 — the pending-annotations buffer -/

theorem attributeLineMatch_eq_none (line : List Char)
    (h : line.contains '[' = false) : attributeLineMatch line = none := by
  cases line with
  | nil => rfl
  | cons c rest =>
    have hc : ¬ c = '[' := by
      intro heq
      subst heq
      simp at h
    simp [attributeLineMatch, hc]

/-- C6 (counterexample): a non-blank line that is not a `using` line, not a
`namespace` line, not an annotation line and not a property line does NOT
always clear the pending-annotations buffer: a method-with-body line contains
braces, so the recognizer's clearing condition
(`!line.includes('[') && !line.includes('{') && !line.includes('}')`) fails
and a previously collected annotation survives onto a later property. -/
theorem attr_clear_counterexample :
    ((trimChars lineC6).isEmpty = false
      ∧ "using ".data.isPrefixOf (trimChars lineC6) = false
      ∧ "namespace ".data.isPrefixOf (trimChars lineC6) = false
      ∧ attributeLineMatch (trimChars lineC6) = none
      ∧ propertyLineMatch (trimChars lineC6) = none)
    ∧ (stepLine ⟨["Required"], true, 1, []⟩ lineC6).currentAttributes = ["Required"] := by
  decide

/-- C6 (amended): while inside a class (and not on the line where the brace
depth returns to zero), a non-blank line that is not a `using` line, not a
`namespace` line, not a property line, and free of `[`, `{` and `}` clears
the pending-annotations buffer; lines containing any of those three
characters preserve it. -/
theorem attr_clear_amended (st : ParseState) (rawLine : List Char)
    (h1 : st.isInClass = true)
    (h2 : st.braceLevel ≠ 0)
    (h3 : (trimChars rawLine).isEmpty = false)
    (h4 : "using ".data.isPrefixOf (trimChars rawLine) = false)
    (h5 : "namespace ".data.isPrefixOf (trimChars rawLine) = false)
    (h6 : propertyLineMatch (trimChars rawLine) = none)
    (h7 : (trimChars rawLine).contains '[' = false)
    (h8 : (trimChars rawLine).contains '\x7b' = false)
    (h9 : (trimChars rawLine).contains '\x7d' = false) :
    (stepLine st rawLine).currentAttributes = [] := by
  have hb1 : (trimChars rawLine).count '\x7b' = 0 := by
    rw [List.count_eq_zero]
    simpa using h8
  have hb2 : (trimChars rawLine).count '\x7d' = 0 := by
    rw [List.count_eq_zero]
    simpa using h9
  have hattr := attributeLineMatch_eq_none _ h7
  simp only [stepLine, h3, h4, h5, hattr, h6, h7, h8, h9, hb1, hb2, h1]
  simp [h2]

/-- C6 (witness): the amended theorem at a concrete in-class state and a
plain statement line. -/
theorem attr_clear_amended_witness :
    (stepLine ⟨["Display"], true, 1, []⟩ "DoSomething();".data).currentAttributes = [] :=
  attr_clear_amended ⟨["Display"], true, 1, []⟩ "DoSomething();".data rfl (by decide)
    (by decide) (by decide) (by decide) (by decide) (by decide) (by decide) (by decide)

end ViewHelper

namespace ViewHelper

/-! ### C7 — the skip policy -/

theorem createModelProperty_name (name type : String) (attributes : List String) :
    (createModelProperty name type attributes).name = name := rfl

theorem createModelProperty_attributes (name type : String) (attributes : List String) :
    (createModelProperty name type attributes).attributes = attributes := rfl

/-- Each line step only emits properties that pass `shouldSkipProperty`. -/
theorem stepLine_skip_invariant (st : ParseState) (line : List Char)
    (h : ∀ p ∈ st.props, shouldSkipProperty p.name p.attributes = false) :
    ∀ p ∈ (stepLine st line).props, shouldSkipProperty p.name p.attributes = false := by
  intro p hp
  simp only [stepLine] at hp
  repeat' split at hp
  all_goals try exact h p hp
  all_goals rename_i hskip
  all_goals rcases List.mem_cons.mp hp with rfl | hp2
  all_goals try exact h _ hp2
  all_goals rw [createModelProperty_name, createModelProperty_attributes]
  all_goals simpa using hskip

/-- The whole scan only accumulates properties that pass
`shouldSkipProperty`. -/
theorem foldl_skip_invariant (lines : List (List Char)) :
    ∀ st : ParseState, (∀ p ∈ st.props, shouldSkipProperty p.name p.attributes = false) →
      ∀ p ∈ (lines.foldl stepLine st).props,
        shouldSkipProperty p.name p.attributes = false := by
  induction lines with
  | nil =>
    intro st h
    simpa using h
  | cons line rest ih =>
    intro st h
    exact ih (stepLine st line) (stepLine_skip_invariant st line h)

/-- C7: for every source text, every property emitted by the recognizer
passes the skip policy — its name matches none of the audit/version name
patterns and its collected annotations carry no
computed/not-persisted/database-generated marker; in particular a property
named `CreatedAt` never appears in the returned sequence. -/
theorem skip_policy_never_emits (content : String) (p : ModelProperty)
    (hp : p ∈ parsePropertiesFromContent content) :
    shouldSkipProperty p.name p.attributes = false ∧ p.name ≠ "CreatedAt" := by
  have h1 : shouldSkipProperty p.name p.attributes = false := by
    have hmem : p ∈ ((splitLines content.data).foldl stepLine ⟨[], false, 0, []⟩).props := by
      simpa [parsePropertiesFromContent] using hp
    exact foldl_skip_invariant (splitLines content.data) ⟨[], false, 0, []⟩ (by simp) p hmem
  refine ⟨h1, ?_⟩
  intro hname
  rw [hname] at h1
  unfold shouldSkipProperty at h1
  split at h1
  · simp at h1
  · rw [show skipNamePatterns "CreatedAt" = true from by decide] at h1
    simp at h1

/-- C7 (witness): the theorem applied to the property extracted from a
concrete source. -/
theorem skip_policy_never_emits_witness :
    shouldSkipProperty c7prop.name c7prop.attributes = false ∧ c7prop.name ≠ "CreatedAt" :=
  skip_policy_never_emits srcNameOnly c7prop (by decide)

end ViewHelper

namespace ViewHelper

/-! ### C9/C10 — bounded size and eviction -/

theorem length_mapSet_le (l : List (String × ModelCacheEntry)) (k : String)
    (v : ModelCacheEntry) : (mapSet l k v).length ≤ l.length + 1 := by
  induction l with
  | nil => simp [mapSet]
  | cons e t ih =>
    obtain ⟨k', v'⟩ := e
    simp only [mapSet]
    by_cases hk : k' = k
    · rw [if_pos hk]
      simp
    · rw [if_neg hk]
      simpa using Nat.succ_le_succ ih

theorem mem_mapSet (l : List (String × ModelCacheEntry)) (k : String)
    (v : ModelCacheEntry) (p : String × ModelCacheEntry) (hp : p ∈ mapSet l k v) :
    p ∈ l ∨ p = (k, v) := by
  induction l with
  | nil =>
    right
    simpa [mapSet] using hp
  | cons e t ih =>
    obtain ⟨k', v'⟩ := e
    simp only [mapSet] at hp
    by_cases hk : k' = k
    · rw [if_pos hk] at hp
      rcases List.mem_cons.mp hp with rfl | h2
      · right
        rw [hk]
      · left
        exact List.mem_cons_of_mem _ h2
    · rw [if_neg hk] at hp
      rcases List.mem_cons.mp hp with rfl | h2
      · left
        exact List.mem_cons_self _ _
      · rcases ih h2 with h3 | h3
        · left
          exact List.mem_cons_of_mem _ h3
        · right
          exact h3

theorem get_cache_cases (c : ModelCache) (T : String) (now : Nat) (stat : Option Nat) :
    (c.get T now stat).2 = c ∨ (c.get T now stat).2 = c.deleteEntry T := by
  unfold ModelCache.get
  repeat' split
  all_goals first
    | (left; rfl)
    | (right; rfl)

theorem deleteEntry_length_le (c : ModelCache) (k : String) :
    (c.deleteEntry k).entries.length ≤ c.entries.length :=
  List.length_filter_le _ _

theorem deleteEntry_head_length (c : ModelCache) (k₀ : String) (e₀ : ModelCacheEntry)
    (h : c.entries.head? = some (k₀, e₀)) :
    (c.deleteEntry k₀).entries.length < c.entries.length := by
  cases hc : c.entries with
  | nil =>
    rw [hc] at h
    simp at h
  | cons e t =>
    rw [hc] at h
    have he : e = (k₀, e₀) := by simpa using h
    subst he
    have hfe : (c.deleteEntry k₀).entries = List.filter (fun e => ¬ e.1 = k₀) t := by
      unfold ModelCache.deleteEntry
      rw [hc, List.filter_cons]
      simp
    rw [hfe]
    simp only [List.length_cons]
    exact Nat.lt_succ_of_le (List.length_filter_le _ t)

theorem mem_deleteEntry (c : ModelCache) (k : String) (p : String × ModelCacheEntry)
    (hp : p ∈ (c.deleteEntry k).entries) : p ∈ c.entries :=
  List.mem_of_mem_filter hp

/-- Rewriting lemma: `set` at the size bound with a non-empty (truthy) first
key deletes that key; with a failing stat nothing more happens. -/
theorem set_at_bound_none (c : ModelCache) (k f : String) (props : List ModelProperty)
    (k₀ : String) (e₀ : ModelCacheEntry)
    (hfull : maxCacheSize ≤ c.entries.length)
    (hhead : c.entries.head? = some (k₀, e₀))
    (hk₀ : k₀ ≠ "") :
    c.set k f props none = c.deleteEntry k₀ := by
  unfold ModelCache.set
  rw [if_pos hfull, hhead]
  simp only [if_neg hk₀]

/-- Rewriting lemma: `set` at the size bound with a non-empty (truthy) first
key deletes that key, then inserts the stamped entry. -/
theorem set_at_bound_some (c : ModelCache) (k f : String) (props : List ModelProperty)
    (m : Nat) (k₀ : String) (e₀ : ModelCacheEntry)
    (hfull : maxCacheSize ≤ c.entries.length)
    (hhead : c.entries.head? = some (k₀, e₀))
    (hk₀ : k₀ ≠ "") :
    c.set k f props (some m)
      = ⟨mapSet (c.deleteEntry k₀).entries k ⟨k, props, m, f⟩⟩ := by
  unfold ModelCache.set
  rw [if_pos hfull, hhead]
  simp only [if_neg hk₀]

/-- Rewriting lemma: `set` below the size bound with a failing stat is the
identity. -/
theorem set_below_bound_none (c : ModelCache) (k f : String) (props : List ModelProperty)
    (hsmall : ¬ maxCacheSize ≤ c.entries.length) :
    c.set k f props none = c := by
  unfold ModelCache.set
  rw [if_neg hsmall]

/-- Rewriting lemma: `set` below the size bound inserts without eviction. -/
theorem set_below_bound_some (c : ModelCache) (k f : String) (props : List ModelProperty)
    (m : Nat) (hsmall : ¬ maxCacheSize ≤ c.entries.length) :
    c.set k f props (some m) = ⟨mapSet c.entries k ⟨k, props, m, f⟩⟩ := by
  unfold ModelCache.set
  rw [if_neg hsmall]

end ViewHelper

namespace ViewHelper

set_option maxRecDepth 10000 in
/-- C9 (counterexample): the size bound is not an invariant of `set`.  `c100`
is reached from the empty cache by 100 `set` calls; its first-inserted key is
the empty string, which is falsy in JS, so `set` at the bound evicts nothing
and grows the cache to 101 entries. -/
theorem cache_bound_counterexample :
    c100.entries.length = maxCacheSize
    ∧ (c100.set "x" "f" [] (some 0)).entries.length = maxCacheSize + 1 := by
  decide

/-- C9 (amended): provided the empty string is never used as a type-name key
(all stored keys non-empty and the inserted key non-empty), every cache
operation preserves the size bound, and `set` invoked at the bound evicts the
first-inserted entry (when its key differs from the inserted one) before
inserting.  With an empty-string first key, `set` at the bound evicts nothing
and the bound can be exceeded (see the counterexample). -/
theorem cache_bound_amended (c : ModelCache) (k f : String)
    (props : List ModelProperty) (stat : Option Nat) (now : Nat)
    (hk : k ≠ "")
    (hkeys : ∀ p ∈ c.entries, p.1 ≠ "")
    (hlen : c.entries.length ≤ maxCacheSize) :
    ((c.set k f props stat).entries.length ≤ maxCacheSize
      ∧ ∀ p ∈ (c.set k f props stat).entries, p.1 ≠ "")
    ∧ (c.get k now stat).2.entries.length ≤ maxCacheSize
    ∧ (c.deleteOp k).2.entries.length ≤ maxCacheSize
    ∧ (c.clear).entries.length ≤ maxCacheSize
    ∧ (c.cleanup now).entries.length ≤ maxCacheSize
    ∧ (c.entries.length = maxCacheSize →
        ∀ k₀ e₀, c.entries.head? = some (k₀, e₀) → k₀ ≠ k →
          (c.set k f props stat).lookupEntry k₀ = none) := by
  refine ⟨?_, ?_, ?_, ?_, ?_, ?_⟩
  · -- `set` preserves the bound and the non-empty-key invariant
    by_cases hfull : maxCacheSize ≤ c.entries.length
    · obtain ⟨e, t, hc⟩ : ∃ e t, c.entries = e :: t := by
        cases hcc : c.entries with
        | nil =>
          rw [hcc] at hfull
          simp [maxCacheSize] at hfull
        | cons e t => exact ⟨e, t, rfl⟩
      have hhead : c.entries.head? = some (e.1, e.2) := by
        rw [hc]
        rfl
      have hmem0 : e ∈ c.entries := by
        rw [hc]
        exact List.mem_cons_self _ _
      have hk₀ : e.1 ≠ "" := hkeys e hmem0
      have hdl : (c.deleteEntry e.1).entries.length < c.entries.length :=
        deleteEntry_head_length c e.1 e.2 hhead
      cases stat with
      | none =>
        rw [set_at_bound_none c k f props e.1 e.2 hfull hhead hk₀]
        refine ⟨by omega, ?_⟩
        intro p hp
        exact hkeys p (mem_deleteEntry c e.1 p hp)
      | some m =>
        rw [set_at_bound_some c k f props m e.1 e.2 hfull hhead hk₀]
        constructor
        · have hm := length_mapSet_le (c.deleteEntry e.1).entries k ⟨k, props, m, f⟩
          show (mapSet (c.deleteEntry e.1).entries k ⟨k, props, m, f⟩).length ≤ maxCacheSize
          omega
        · intro p hp
          rcases mem_mapSet _ _ _ p hp with h2 | h2
          · exact hkeys p (mem_deleteEntry c e.1 p h2)
          · rw [h2]
            exact hk
    · cases stat with
      | none =>
        rw [set_below_bound_none c k f props hfull]
        exact ⟨hlen, hkeys⟩
      | some m =>
        rw [set_below_bound_some c k f props m hfull]
        constructor
        · have hm := length_mapSet_le c.entries k ⟨k, props, m, f⟩
          show (mapSet c.entries k ⟨k, props, m, f⟩).length ≤ maxCacheSize
          omega
        · intro p hp
          rcases mem_mapSet _ _ _ p hp with h2 | h2
          · exact hkeys p h2
          · rw [h2]
            exact hk
  · rcases get_cache_cases c k now stat with h | h
    · rw [h]
      exact hlen
    · rw [h]
      exact le_trans (deleteEntry_length_le c k) hlen
  · exact le_trans (deleteEntry_length_le c k) hlen
  · simp [ModelCache.clear]
  · exact le_trans (List.length_filter_le _ _) hlen
  · intro hlen100 k₀ e₀ hhead hne
    have hk₀ : k₀ ≠ "" := hkeys (k₀, e₀) (List.mem_of_mem_head? hhead)
    have hfull : maxCacheSize ≤ c.entries.length := le_of_eq hlen100.symm
    cases stat with
    | none =>
      rw [set_at_bound_none c k f props k₀ e₀ hfull hhead hk₀]
      exact lookupEntry_deleteEntry_self c k₀
    | some m =>
      rw [set_at_bound_some c k f props m k₀ e₀ hfull hhead hk₀]
      show (ModelCache.mk _).lookupEntry k₀ = none
      unfold ModelCache.lookupEntry
      rw [find?_mapSet_ne _ _ _ _ hne]
      have h0 := lookupEntry_deleteEntry_self c k₀
      unfold ModelCache.lookupEntry at h0
      exact h0

set_option maxRecDepth 10000 in
/-- C9 (witness): the amended theorem at the concrete 100-entry cache
`c100N` (keys `"1"` … `"100"`). -/
theorem cache_bound_amended_witness :
    (c100N.set "x" "f" [] (some 5)).entries.length ≤ maxCacheSize
    ∧ (c100N.set "x" "f" [] (some 5)).lookupEntry "1" = none := by
  have h := cache_bound_amended c100N "x" "f" [] (some 5) 0 (by decide) (by decide) (by decide)
  exact ⟨h.1.1, h.2.2.2.2.2 (by decide) "1" ⟨"1", [], 0, "f"⟩ (by decide) (by decide)⟩

set_option maxRecDepth 10000 in
/-- C10 (counterexample): `set` at the bound does not always evict: with the
(falsy) empty string as first-inserted key and a failing stat, `set` removes
nothing and leaves the cache unchanged, so no entry is removed and the size
does not decrease. -/
theorem set_eviction_counterexample :
    c100.entries.length = maxCacheSize ∧ c100.set "x" "f" [] none = c100 := by
  decide

/-- C10 (amended): whenever `set` is invoked with the cache at (or beyond)
its size bound and the first-inserted key non-empty, and stat-ing the backing
file fails, the first-inserted entry is removed, no new entry is stored (the
result is exactly the deletion), and the cache size strictly decreases. -/
theorem set_eviction_amended (c : ModelCache) (k f : String)
    (props : List ModelProperty) (k₀ : String) (e₀ : ModelCacheEntry)
    (h1 : maxCacheSize ≤ c.entries.length)
    (h2 : c.entries.head? = some (k₀, e₀))
    (h3 : k₀ ≠ "") :
    c.set k f props none = c.deleteEntry k₀
    ∧ (c.deleteEntry k₀).entries.length < c.entries.length :=
  ⟨set_at_bound_none c k f props k₀ e₀ h1 h2 h3,
   deleteEntry_head_length c k₀ e₀ h2⟩

set_option maxRecDepth 10000 in
/-- C10 (witness): the amended theorem at the concrete 100-entry cache
`c100N`: the failed `set` deletes the unrelated valid entry `"1"` and shrinks
the cache. -/
theorem set_eviction_amended_witness :
    c100N.set "x" "f" [] none = c100N.deleteEntry "1"
    ∧ (c100N.deleteEntry "1").entries.length < c100N.entries.length :=
  set_eviction_amended c100N "x" "f" [] "1" ⟨"1", [], 0, "f"⟩ (by decide) (by decide)
    (by decide)

end ViewHelper
